import Mathlib

/-!
Shallow embedding of the evaluation core in `src/jedi/evaluate_representation.py`
and proofs about its argument binding, superclass resolution, decorator
resolution, container indexing, generator handling and recursion guarding.

Machine-level conventions used throughout:
* parsed statements and evaluated values are abstracted as type parameters or
  `Nat` identifiers; the external statement evaluator `evaluate.follow_statement`
  is passed in as an oracle function, as the spec treats it as a collaborator;
* Python exceptions that the embedded code raises or catches are represented
  with `Except`;
* the only mutation performed by the embedded operations (`Execution.get_params`
  setting `is_generated` on a parameter node) is made explicit by returning the
  post-call list of parameter nodes next to the computed bindings.
-/

set_option autoImplicit false
set_option linter.unusedVariables false

deriving instance DecidableEq for Except

namespace Jedi

/-! ### Parameters and argument binding (`Execution.get_params`, lines 485-659)

A `Param` models one entry of `pr.Function.params` with exactly the fields the
embedded code reads or writes: its name (`str(param.get_name())`), whether its
first command is `'*'` or `'**'`, whether `param.assignment_details` is
non-empty (a declared default), and the mutable `is_generated` flag. -/

/-- Shape of a declared parameter: plain, `*args`-style or `**kwargs`-style
(`commands[0] == '*'` / `'**'` in `get_params`). -/
inductive PVar where
  | normal
  | star
  | dstar
deriving DecidableEq

/-- A parser-produced parameter node, as read and (for `isGenerated`) written by
`Execution.get_params`. -/
structure Param where
  pname : String
  variant : PVar
  hasDefault : Bool
  isGenerated : Bool
deriving DecidableEq

/-- The array types `pr.Array.TUPLE` / `pr.Array.DICT` synthesized by
`gen_param_name_copy` for variadic parameters. -/
inductive ArrKind where
  | tuple
  | dict
deriving DecidableEq

/-- A synthesized parameter binding appended to `result` in `get_params`.
`copy` stands for `gen_param_name_copy(param, keys, values, array_type)`: a
fresh name whose parent is a fresh copied param holding a fresh array — the
original nodes are untouched.  `orig` stands for `result.append(param.get_name())`
in the default branch (lines 593-597): the original, uncopied name of the
parameter, which resolves to the parameter's own default expression.
`selfName` is the copied first-parameter name bound to the owning instance for
instance-bound members (lines 531-536). -/
inductive Binding (V : Type) where
  | selfName (pname : String)
  | copy (pname : String) (keys : List String) (values : List V) (arrType : Option ArrKind)
  | orig (pname : String)
deriving DecidableEq

/-- One element of `Execution.var_args` as consumed by
`get_var_args_iterator` (lines 618-659): an already-evaluated object
(not a `pr.Statement`), a plain positional statement, a keyword-shaped
statement (`assignment_details` whose key is a `pr.Call`), a keyword-shaped
statement whose key array is empty or not a call (yields nothing), a `*`
expansion or a `**` expansion (each expanding the arrays produced by
`evaluate.follow_call_list`). -/
inductive VarArg (V : Type) where
  | obj (v : V)
  | pos (v : V)
  | kw (name : String) (v : V)
  | kwBroken (v : V)
  | star (arrays : List (List V))
  | dstar (arrays : List (List (String × V)))

variable {V : Type}

/-- The pair stream produced by `Execution.get_var_args_iterator`: a
`(key, value)` pair per argument, `key = none` for positional entries. -/
def varArgPairs : List (VarArg V) → List (Option String × V)
  | [] => []
  | .obj v :: r => (none, v) :: varArgPairs r
  | .pos v :: r => (none, v) :: varArgPairs r
  | .kw n v :: r => (some n, v) :: varArgPairs r
  | .kwBroken _ :: r => varArgPairs r
  | .star arrays :: r => (arrays.flatten.map (fun v => (none, v))) ++ varArgPairs r
  | .dstar arrays :: r => (arrays.flatten.map (fun kv => (some kv.1, kv.2))) ++ varArgPairs r

/-- Lookup `param_dict[str(key)]`: the dict built at lines 538-540 maps each name to
the last parameter declared with it (later assignments overwrite). -/
def paramLookup (allP : List Param) (k : String) : Option Param :=
  allP.reverse.find? (fun p => p.pname == k)

/-- Result of the `while key:` loop (lines 554-565) run at the start of one
parameter's iteration: the remaining pair stream, the positional value
consumed (if any), the grown `non_matching_keys`, `keys_used`, `keys_only`
and the bindings appended for matched keyword arguments. -/
structure KwOut (V : Type) where
  pairs : List (Option String × V)
  valueOpt : Option V
  nm : List (String × V)
  used : List String
  keysOnly : Bool
  binds : List (Binding V)

/-- The `while key:` loop: consumes keyword pairs until a positional pair (or
exhaustion), binding matched keywords to a copy of the parameter of that name
and buffering unmatched ones. -/
def consumeKw (allP : List Param) : List (Option String × V) → List (String × V) →
    List String → Bool → KwOut V
  | [], nm, used, ko => ⟨[], none, nm, used, ko, []⟩
  | (none, v) :: rest, nm, used, ko => ⟨rest, some v, nm, used, ko, []⟩
  | (some k, v) :: rest, nm, used, ko =>
    match paramLookup allP k with
    | none => consumeKw allP rest (nm ++ [(k, v)]) used true
    | some kp =>
      let r := consumeKw allP rest nm (used ++ [k]) true
      { r with binds := Binding.copy kp.pname [] [v] none :: r.binds }

/-- The `for key, value in var_arg_iterator` loop of the `*` branch
(lines 576-581): take positional values until a keyword pair is found, push
that pair back, and remember the last value of the loop variable `key`. -/
def takePos : List (Option String × V) → List V × List (Option String × V) × Option String
  | [] => ([], [], none)
  | (some k, v) :: rest => ([], (some k, v) :: rest, some k)
  | (none, v) :: rest =>
    let r := takePos rest
    (v :: r.1, r.2.1, r.2.2)

/-- Conversion `str(key)` at line 607: `key` is `None` or a name. -/
def strKey : Option String → String
  | none => "None"
  | some k => k

/-- Outcome of one parameter's branch (lines 567-609): bindings appended, the
(possibly flag-mutated) parameter node, the remaining pair stream, and the
updated `keys_used`. -/
structure StepOut (V : Type) where
  binds : List (Binding V)
  param : Param
  pairs : List (Option String × V)
  used : List String

/-- The per-parameter branch of `get_params`: `*` collects remaining
positionals into one TUPLE array, `**` collects the buffered non-matching
keywords into one DICT array, a plain parameter takes the consumed positional
value, falls back to its default (appending the original name and setting
`is_generated` on the original node), or binds empty; once `keys_only` is set,
only `**` parameters are still created. -/
def paramStep (p : Param) (pairs1 : List (Option String × V)) (valueOpt : Option V)
    (nm1 : List (String × V)) (used1 : List String) (ko1 : Bool) : StepOut V :=
  match p.variant with
  | .star =>
    let t := takePos pairs1
    if ko1 then ⟨[], p, t.2.1, used1⟩
    else
      ⟨[Binding.copy p.pname [] (valueOpt.toList ++ t.1) (some ArrKind.tuple)], p,
        t.2.1, used1 ++ [strKey t.2.2]⟩
  | .dstar =>
    ⟨[Binding.copy p.pname (nm1.map Prod.fst) (nm1.map Prod.snd) (some ArrKind.dict)], p,
      pairs1, used1 ++ [strKey none]⟩
  | .normal =>
    if ko1 then ⟨[], p, pairs1, used1⟩
    else
      match valueOpt with
      | some v => ⟨[Binding.copy p.pname [] [v] none], p, pairs1, used1 ++ [strKey none]⟩
      | none =>
        if p.hasDefault then
          ⟨[Binding.orig p.pname], { p with isGenerated := true }, pairs1, used1⟩
        else ⟨[Binding.copy p.pname [] [] none], p, pairs1, used1 ++ [strKey none]⟩

/-- Threaded loop state of `get_params`: the remaining pair stream,
`non_matching_keys`, `keys_used` and `keys_only`. -/
structure PState (V : Type) where
  pairs : List (Option String × V)
  nm : List (String × V)
  used : List String
  keysOnly : Bool

/-- The main `for param in self.base.params[start_offset:]` loop of
`get_params` (lines 548-609), returning the appended bindings, the post-call
parameter nodes (in place of Python's in-place mutation) and the final state. -/
def paramsLoop (allP : List Param) : List Param → PState V →
    List (Binding V) × List Param × PState V
  | [], st => ([], [], st)
  | p :: ps, st =>
    let c := consumeKw allP st.pairs st.nm st.used st.keysOnly
    let s := paramStep p c.pairs c.valueOpt c.nm c.used c.keysOnly
    let r := paramsLoop allP ps ⟨s.pairs, c.nm, s.used, c.keysOnly⟩
    (c.binds ++ s.binds ++ r.1, s.param :: r.2.1, r.2.2)

/-- The trailing `if keys_only:` loop (lines 611-615): every distinctly named
parameter whose name was never added to `keys_used` gets a default copied
binding (`gen_param_name_copy(param_dict[k])`). -/
def finalDefaults (allP : List Param) (used : List String) : List (Binding V) :=
  (((allP.map Param.pname).dedup).filter (fun k => decide (k ∉ used))).filterMap
    (fun k => (paramLookup allP k).map (fun p => Binding.copy p.pname [] [] none))

/-- Operation `Execution.get_params` (lines 485-616).  `isIE` is
`isinstance(self.base, InstanceElement)`: the first parameter is then excluded
from binding and a copy of its name, re-parented onto the instance, is
prepended.  The second component is the post-call list of parameter nodes: the
source mutates `param.is_generated` in place (line 597), which the embedding
returns explicitly. -/
def getParams (isIE : Bool) (params : List Param) (varArgs : List (VarArg V)) :
    List (Binding V) × List Param :=
  let pairs := varArgPairs varArgs
  if isIE then
    match params with
    | [] => ([], [])
    | p0 :: rest =>
      let r := paramsLoop params rest ⟨pairs, [], [], false⟩
      let fin : List (Binding V) :=
        if r.2.2.keysOnly then finalDefaults params r.2.2.used else []
      (Binding.selfName p0.pname :: (r.1 ++ fin), p0 :: r.2.1)
  else
    let r := paramsLoop params params ⟨pairs, [], [], false⟩
    let fin : List (Binding V) :=
      if r.2.2.keysOnly then finalDefaults params r.2.2.used else []
    (r.1 ++ fin, r.2.1)

/-! ### Helper lemmas about the binding loop -/

@[simp] theorem consumeKw_nil (allP : List Param) (nm : List (String × V))
    (used : List String) (ko : Bool) :
    consumeKw allP [] nm used ko = ⟨[], none, nm, used, ko, []⟩ := rfl

@[simp] theorem consumeKw_posHead (allP : List Param) (v : V)
    (rest : List (Option String × V)) (nm : List (String × V)) (used : List String)
    (ko : Bool) :
    consumeKw allP ((none, v) :: rest) nm used ko = ⟨rest, some v, nm, used, ko, []⟩ := rfl

theorem paramStep_normal_some {p : Param} (h : p.variant = PVar.normal)
    (pairs1 : List (Option String × V)) (v : V) (nm1 : List (String × V))
    (used1 : List String) :
    paramStep p pairs1 (some v) nm1 used1 false =
      ⟨[Binding.copy p.pname [] [v] none], p, pairs1, used1 ++ [strKey none]⟩ := by
  simp [paramStep, h]

/-- The branch of `get_params` never rewrites a parameter node beyond possibly
setting its `is_generated` flag (line 597). -/
theorem paramStep_param (p : Param) (pairs1 : List (Option String × V)) (valueOpt : Option V)
    (nm1 : List (String × V)) (used1 : List String) (ko1 : Bool) :
    (paramStep p pairs1 valueOpt nm1 used1 ko1).param = p ∨
      (paramStep p pairs1 valueOpt nm1 used1 ko1).param = { p with isGenerated := true } := by
  cases hv : p.variant <;> cases valueOpt <;> cases ko1 <;> cases hd : p.hasDefault <;>
    simp [paramStep, hv, hd]

theorem paramsLoop_mutation (allP : List Param) :
    ∀ (ps : List Param) (st : PState V),
      List.Forall₂ (fun p q => q = p ∨ q = { p with isGenerated := true }) ps
        (paramsLoop allP ps st).2.1
  | [], _ => by simp [paramsLoop]
  | p :: ps, st => by
    simp only [paramsLoop]
    exact List.Forall₂.cons (paramStep_param p _ _ _ _ _) (paramsLoop_mutation allP ps _)

theorem varArgPairs_map_pos (args : List V) :
    varArgPairs (args.map VarArg.pos) = args.map (fun v => ((none : Option String), v)) := by
  induction args with
  | nil => rfl
  | cons a args ih => simp [varArgPairs, ih]

theorem varArgPairs_map_kw (ks : List (String × V)) :
    varArgPairs (ks.map (fun kv => VarArg.kw kv.1 kv.2)) =
      ks.map (fun kv => (some kv.1, kv.2)) := by
  induction ks with
  | nil => rfl
  | cons a ks ih => simp [varArgPairs, ih]

theorem takePos_map_pos (vs : List V) :
    takePos (vs.map (fun v => ((none : Option String), v))) = (vs, [], none) := by
  induction vs with
  | nil => rfl
  | cons v vs ih => simp [takePos, ih]

/-- Processing a block of plain positional parameters against matching leading
positional arguments binds each parameter to the argument at the same ordinal
position, consuming those arguments and leaving the parameter nodes unchanged. -/
theorem paramsLoop_pos_prefix (allP : List Param) :
    ∀ (ns : List Param) (rest : List Param) (vs : List V) (nm : List (String × V))
      (used : List String),
      ns.length ≤ vs.length → (∀ p ∈ ns, p.variant = PVar.normal) →
      ∃ used',
        paramsLoop allP (ns ++ rest) ⟨vs.map (fun v => (none, v)), nm, used, false⟩ =
          ((List.zipWith (fun p v => Binding.copy p.pname [] [v] none) ns vs) ++
              (paramsLoop allP rest
                ⟨(vs.drop ns.length).map (fun v => (none, v)), nm, used', false⟩).1,
            ns ++ (paramsLoop allP rest
                ⟨(vs.drop ns.length).map (fun v => (none, v)), nm, used', false⟩).2.1,
            (paramsLoop allP rest
                ⟨(vs.drop ns.length).map (fun v => (none, v)), nm, used', false⟩).2.2)
  | [], rest, vs, nm, used => by
    intro _ _
    exact ⟨used, by simp⟩
  | p :: ns, rest, [], nm, used => by
    intro hlen _
    simp at hlen
  | p :: ns, rest, v :: vs, nm, used => by
    intro hlen hnorm
    obtain ⟨used', heq⟩ :=
      paramsLoop_pos_prefix allP ns rest vs nm (used ++ [strKey none])
        (by simpa using hlen) (fun q hq => hnorm q (List.mem_cons_of_mem _ hq))
    refine ⟨used', ?_⟩
    simp only [List.cons_append, paramsLoop, List.map_cons, consumeKw_posHead,
      paramStep_normal_some (hnorm p (List.mem_cons_self p ns)), List.append_eq]
    rw [heq]
    simp

/-- The parameter `a` of the spec scenario `f(a, b=2)`: plain, no default. -/
def pA : Param := ⟨"a", PVar.normal, false, false⟩

/-- The parameter `b=2` of the spec scenario `f(a, b=2)`: plain, with a
declared default expression. -/
def pB : Param := ⟨"b", PVar.normal, true, false⟩

/-- C1 (counterexample): the claim that `Execution.get_params` leaves every
original definition node unchanged and builds all synthesized bindings on
copies is false: for `f(a, b=2)` called with one positional argument, the
default branch (lines 593-597) sets `is_generated = True` on the *original*
parameter node of `b` and appends `b`'s *original* name (not a copy) as its
binding. -/
theorem get_params_mutates_default_param :
    (getParams false [pA, pB] [VarArg.pos (1 : Nat)]).2 ≠ [pA, pB] ∧
      Binding.orig pB.pname ∈ (getParams false [pA, pB] [VarArg.pos (1 : Nat)]).1 := by
  decide

/-- C1 (amended): argument binding mutates no field of any original
parameter node *except* the `is_generated` flag, which it sets on an
unsupplied defaulted parameter; every post-call parameter node is either the
original or the original with only `is_generated` turned on, and all bindings
built from supplied values are fresh `copy` bindings. -/
theorem get_params_mutation_confined {V : Type} (isIE : Bool) (params : List Param)
    (varArgs : List (VarArg V)) :
    List.Forall₂ (fun p q => q = p ∨ q = { p with isGenerated := true }) params
      (getParams isIE params varArgs).2 := by
  unfold getParams
  split
  · split
    · exact List.Forall₂.nil
    · exact List.Forall₂.cons (Or.inl rfl) (paramsLoop_mutation _ _ _)
  · exact paramsLoop_mutation _ _ _

/-- C2: for a function whose declared parameters are all plain positional
parameters, called with exactly as many positional arguments,
`Execution.get_params` binds each parameter to the argument at the same
ordinal position; and in the spec scenario `f(a, b=2)` called with one
positional argument, `a` is bound to that argument while `b` falls back to its
declared default (its original name, resolving to the default expression) —
not to the supplied argument and not to an empty value. -/
theorem get_params_positional_binding {V : Type} (params : List Param) (args : List V)
    (hlen : params.length = args.length)
    (hnorm : ∀ p ∈ params, p.variant = PVar.normal) (v : V) :
    getParams false params (args.map VarArg.pos) =
        (List.zipWith (fun p a => Binding.copy p.pname [] [a] none) params args, params) ∧
      getParams false [pA, pB] [VarArg.pos v] =
        ([Binding.copy pA.pname [] [v] none, Binding.orig pB.pname],
          [pA, { pB with isGenerated := true }]) := by
  constructor
  · obtain ⟨used', heq⟩ :=
      paramsLoop_pos_prefix params params [] args [] [] (le_of_eq hlen) hnorm
    rw [List.append_nil] at heq
    unfold getParams
    simp only [if_neg (Bool.false_ne_true), varArgPairs_map_pos, heq, paramsLoop]
    simp
  · rfl

/-- Witness for `get_params_positional_binding` at `f(a, b)` with arguments
`[5, 6]` and the scenario argument `1`. -/
theorem get_params_positional_binding_witness :
    getParams false [pA, pB] ([5, 6].map VarArg.pos) =
        (List.zipWith (fun p a => Binding.copy p.pname [] [a] none) [pA, pB]
          [(5 : Nat), 6], [pA, pB]) ∧
      getParams false [pA, pB] [VarArg.pos (1 : Nat)] =
        ([Binding.copy pA.pname [] [1] none, Binding.orig pB.pname],
          [pA, { pB with isGenerated := true }]) :=
  get_params_positional_binding [pA, pB] [5, 6] (by decide) (by decide) 1

theorem paramLookup_single_ne {dp : Param} {k : String} (h : k ≠ dp.pname) :
    paramLookup [dp] k = none := by
  have hb : (dp.pname == k) = false := beq_eq_false_iff_ne.mpr (Ne.symm h)
  simp [paramLookup, List.find?, hb]

theorem paramLookup_single_self (dp : Param) : paramLookup [dp] dp.pname = some dp := by
  simp [paramLookup, List.find?]

/-- A run of keyword pairs none of which names a declared parameter is
buffered, in order, into `non_matching_keys`, sets `keys_only` and produces no
binding. -/
theorem consumeKw_kw_unmatched (allP : List Param) :
    ∀ (ks : List (String × V)) (nm : List (String × V)) (used : List String) (ko : Bool),
      (∀ kv ∈ ks, paramLookup allP kv.1 = none) →
      consumeKw allP (ks.map (fun kv => (some kv.1, kv.2))) nm used ko =
        ⟨[], none, nm ++ ks, used, ko || !ks.isEmpty, []⟩
  | [], nm, used, ko => by intro _; simp [consumeKw]
  | kv :: ks, nm, used, ko => by
    intro h
    have hk := h kv (List.mem_cons_self kv ks)
    simp only [List.map_cons, consumeKw, hk]
    rw [consumeKw_kw_unmatched allP ks (nm ++ [kv]) used true
      (fun q hq => h q (List.mem_cons_of_mem _ hq))]
    simp

/-- A `*` parameter processed against a stream of positional pairs collects
all of them, in order, into a single TUPLE-typed copied binding. -/
theorem paramsLoop_star_tail (allP : List Param) {sp : Param}
    (hs : sp.variant = PVar.star) (ws : List V) (nm : List (String × V))
    (used : List String) :
    paramsLoop allP [sp] ⟨ws.map (fun v => (none, v)), nm, used, false⟩ =
      ([Binding.copy sp.pname [] ws (some ArrKind.tuple)], [sp],
        ⟨[], nm, used ++ [strKey none], false⟩) := by
  cases ws with
  | nil => simp [paramsLoop, paramStep, hs, takePos]
  | cons w ws => simp [paramsLoop, paramStep, hs, takePos_map_pos]

/-- C3: a `*` parameter receives every positional argument not yet
consumed by the preceding plain parameters, collected in call order as one
TUPLE-typed array value; and a `**` parameter receives every keyword argument
whose name matched no declared parameter, collected as one DICT-typed keyed
array value (the trailing `keys_only` pass then also appends the usual default
copy for the `**` parameter's own name). -/
theorem get_params_variadic_collection {V : Type}
    (ns : List Param) (sp : Param) (vs : List V)
    (hnorm : ∀ p ∈ ns, p.variant = PVar.normal) (hs : sp.variant = PVar.star)
    (hlen : ns.length ≤ vs.length)
    (dp : Param) (ks : List (String × V)) (hd : dp.variant = PVar.dstar)
    (hke : ks ≠ []) (hkn : ∀ kv ∈ ks, kv.1 ≠ dp.pname) (hdn : dp.pname ≠ strKey none) :
    getParams false (ns ++ [sp]) (vs.map VarArg.pos) =
        (List.zipWith (fun p a => Binding.copy p.pname [] [a] none) ns vs ++
            [Binding.copy sp.pname [] (vs.drop ns.length) (some ArrKind.tuple)],
          ns ++ [sp]) ∧
      getParams false [dp] (ks.map (fun kv => VarArg.kw kv.1 kv.2)) =
        ([Binding.copy dp.pname (ks.map Prod.fst) (ks.map Prod.snd) (some ArrKind.dict),
          Binding.copy dp.pname [] [] none], [dp]) := by
  constructor
  · obtain ⟨used', heq⟩ :=
      paramsLoop_pos_prefix (ns ++ [sp]) ns [sp] vs [] [] hlen hnorm
    unfold getParams
    simp only [if_neg (Bool.false_ne_true), varArgPairs_map_pos, heq,
      paramsLoop_star_tail (ns ++ [sp]) hs]
    simp
  · unfold getParams
    simp only [if_neg (Bool.false_ne_true), varArgPairs_map_kw, paramsLoop]
    rw [consumeKw_kw_unmatched [dp] ks [] [] false
      (fun kv hkv => paramLookup_single_ne (hkn kv hkv))]
    simp only [paramStep, hd, paramsLoop, Bool.false_or, List.nil_append]
    have hne : ks.isEmpty = false := by
      cases ks
      · exact absurd rfl hke
      · rfl
    simp only [hne, Bool.not_false]
    simp [finalDefaults, hdn, paramLookup_single_self]

/-- Witness for `get_params_variadic_collection` at `f(a, *s)` called with
`(5, 6, 7)` and `g(**kw)` called with `(x=5, y=6)`. -/
theorem get_params_variadic_collection_witness :
    getParams false ([pA] ++ [⟨"s", PVar.star, false, false⟩])
        ([5, 6, 7].map VarArg.pos) =
        (List.zipWith (fun p a => Binding.copy p.pname [] [a] none) [pA]
            [(5 : Nat), 6, 7] ++
          [Binding.copy (Param.pname ⟨"s", PVar.star, false, false⟩) []
            ([(5 : Nat), 6, 7].drop [pA].length) (some ArrKind.tuple)],
          [pA] ++ [⟨"s", PVar.star, false, false⟩]) ∧
      getParams false [⟨"kw", PVar.dstar, false, false⟩]
          ([(⟨"x", 5⟩ : String × Nat), ⟨"y", 6⟩].map (fun kv => VarArg.kw kv.1 kv.2)) =
        ([Binding.copy (Param.pname ⟨"kw", PVar.dstar, false, false⟩)
            ([(⟨"x", (5 : Nat)⟩ : String × Nat), ⟨"y", 6⟩].map Prod.fst)
            ([(⟨"x", (5 : Nat)⟩ : String × Nat), ⟨"y", 6⟩].map Prod.snd)
            (some ArrKind.dict),
          Binding.copy (Param.pname ⟨"kw", PVar.dstar, false, false⟩) [] [] none],
          [⟨"kw", PVar.dstar, false, false⟩]) :=
  get_params_variadic_collection [pA] ⟨"s", PVar.star, false, false⟩ [5, 6, 7]
    (by decide) rfl (by decide) ⟨"kw", PVar.dstar, false, false⟩ [⟨"x", 5⟩, ⟨"y", 6⟩]
    rfl (by decide) (by decide) (by decide)

/-! ### Class wrapper (`Class`, lines 238-302)

Class wrappers are identified by the id of the wrapped class definition
(`cache.CachedMetaClass` guarantees one wrapper per definition).  Superclass
expressions are parser statements, evaluated through the external
`evaluate.follow_statement` oracle. -/

/-- Identifier of an (identity-cached) evaluated class wrapper. -/
abbrev ClsW : Type := Nat

/-- One possible value of a superclass expression: either an evaluated class
wrapper or anything else (instance, function, module, ...), which
`get_super_classes` discards with a warning (line 253-255). -/
inductive SupVal where
  | cls (c : ClsW)
  | nonCls (tag : Nat)
deriving DecidableEq

/-- A parsed class definition as read by `Class.get_super_classes`: its
identity, its declared superclass statements (`self.base.supers`) and whether
its parent scope is the builtin scope (`self.base.parent ==
builtin.Builtin.scope`). -/
structure ClsDef where
  cid : Nat
  supers : List Nat
  parentIsBuiltin : Bool
deriving DecidableEq

/-- Identity of the builtin root `object` class wrapper. -/
def objectW : ClsW := 0

/-- Modelled from the spec: `evaluate.find_name(builtin.Builtin.scope,
'object')` lives in `evaluate.py`, outside `src/`; per spec §6 the
builtin-scope provider exposes the canonical wrapped definition of the
language's root object type, so the lookup yields exactly that one wrapper. -/
def objectLookup : List ClsW := [objectW]

/-- Operation `Class.get_super_classes` (lines 246-260): follow each superclass
statement, keep only class results, and when nothing remains and the class is
not parented by the builtin scope, fall back to the builtin `object` lookup. -/
def getSuperClasses (follow : Nat → List SupVal) (objLookup : List ClsW)
    (c : ClsDef) : List ClsW :=
  let supers := ((c.supers.map follow).flatten).filterMap
    (fun v => match v with | .cls k => some k | .nonCls _ => none)
  if supers.isEmpty ∧ c.parentIsBuiltin = false then supers ++ objLookup else supers

/-- C4 (counterexample): the claim guards the `object` fallback by "is not
itself the root builtin class", but the code guards it by `self.base.parent !=
builtin.Builtin.scope` (line 257): a class that is *not* the root builtin
class but is defined in the builtin scope, with no superclass expressions,
gets an empty superclass list instead of the claimed single `object` wrapper. -/
theorem get_super_classes_builtin_parent_no_fallback :
    (ClsDef.cid ⟨1, [], true⟩ ≠ objectW) ∧
      getSuperClasses (fun _ => []) objectLookup ⟨1, [], true⟩ = [] := by
  constructor
  · decide
  · rfl

/-- C4 (amended): for every class whose parent scope is not the builtin
scope, if it declares no superclass expression `get_super_classes()` returns
exactly one element, the builtin root `object` wrapper; and superclass
expressions evaluating to non-class values are discarded, so a class whose
superclass expressions all evaluate to non-class values behaves exactly as if
no superclass were given and also receives the single `object` wrapper. -/
theorem get_super_classes_object_default (follow : Nat → List SupVal) (c : ClsDef)
    (hpar : c.parentIsBuiltin = false)
    (hnc : ∀ s ∈ c.supers, ∀ v ∈ follow s, ∀ k, v ≠ SupVal.cls k) :
    getSuperClasses follow objectLookup c = [objectW] := by
  have hflat : ((c.supers.map follow).flatten).filterMap
      (fun v => match v with | .cls k => some k | .nonCls _ => none) = [] := by
    rw [List.filterMap_eq_nil_iff]
    intro v hv
    rw [List.mem_flatten] at hv
    obtain ⟨l, hl, hvl⟩ := hv
    rw [List.mem_map] at hl
    obtain ⟨s, hs, rfl⟩ := hl
    cases v with
    | cls k => exact absurd rfl (hnc s hs _ hvl k)
    | nonCls t => rfl
  unfold getSuperClasses
  rw [hflat]
  simp [hpar, objectLookup]

/-- Witness for `get_super_classes_object_default`: a user class with no
superclass statements, and one whose only superclass statement evaluates to a
non-class value. -/
theorem get_super_classes_object_default_witness :
    getSuperClasses (fun _ => [SupVal.nonCls 9]) objectLookup ⟨2, [7], false⟩ =
      [objectW] :=
  get_super_classes_object_default (fun _ => [SupVal.nonCls 9]) ⟨2, [7], false⟩ rfl
    (by intro s _ v hv k; simp at hv; simp [hv])

/-! ### Merged member names (`Class.get_defined_names`, lines 262-282)

A member name is its dotted path of segments; the presence test of
`in_iterable` compares only the last segment (`i.names[-1] ==
name.names[-1]`).  The inputs are the class's own declared names
(`self.base.get_defined_names()`) and, per superclass in `get_super_classes()`
order, that superclass's merged names (`cls.get_defined_names()`). -/

/-- Predicate `in_iterable(name, iterable)` (lines 264-271). -/
def inIterable (n : List String) (it : List (List String)) : Bool :=
  it.any (fun i => i.getLast? == n.getLast?)

/-- Operation `Class.get_defined_names` (lines 262-282): own names first, then the
`super_result` accumulated over the superclasses in order, keeping each
inherited name only if its final segment does not appear among the *own*
names (`in_iterable(i, result)` checks against `result`, which still equals
the own names while `super_result` is accumulated separately). -/
def getDefinedNamesC (own : List (List String)) (supers : List (List (List String))) :
    List (List String) :=
  let superResult := supers.foldl
    (fun acc names => acc ++ names.filter (fun i => !inIterable i own)) []
  own ++ superResult

theorem foldl_append_filter (own : List (List String)) :
    ∀ (supers : List (List (List String))) (acc : List (List String)),
      supers.foldl (fun acc names => acc ++ names.filter (fun i => !inIterable i own)) acc =
        acc ++ (supers.map (fun names => names.filter (fun i => !inIterable i own))).flatten
  | [], acc => by simp
  | l :: ls, acc => by
    simp only [List.foldl_cons, foldl_append_filter own ls, List.map_cons,
      List.flatten_cons, List.append_assoc]

/-- C9: `Class.get_defined_names()` lists the class's own declared member
names first, then appends, in `get_super_classes()` order, exactly those
inherited members whose final name segment does not occur as the final
segment of any of the class's own declared names. -/
theorem class_defined_names_merge (own : List (List String))
    (supers : List (List (List String))) :
    getDefinedNamesC own supers =
      own ++ (supers.map (fun names =>
        names.filter (fun i => !own.any (fun o => o.getLast? == i.getLast?)))).flatten := by
  unfold getDefinedNamesC
  rw [foldl_append_filter own supers []]
  simp only [List.nil_append, inIterable]

/-! ### Container wrapper (`Array`, lines 785-881)

A literal container holds a type tag, key statements and value statements; the
external `evaluate.follow_statement` is again an oracle from value statements
to evaluated values.  Python exceptions raised/caught by `get_index_types` and
`get_exact_index_types` (`KeyError`, `IndexError`, plus the uncaught
`AttributeError` of the bare `key.get_code()` call at line 827 and the
`TypeError` of indexing a sequence with a string) are explicit `Except`
errors. -/

/-- Exceptions appearing in the embedded control flow. -/
inductive Exc where
  | keyError
  | indexError
  | typeError
  | attrError
  | decoratorNotFound
deriving DecidableEq

/-- The literal container kinds (`pr.Array.DICT` distinguished at line 820). -/
inductive ArrTy where
  | dict
  | list
  | tuple
  | set_
deriving DecidableEq

/-- One key statement of a mapping literal as inspected at lines 822-834: the
number of its commands and, if its single command has a `get_code` attribute,
that source text (`none` models a command without `get_code`, whose bare
`key.get_code()` call at line 827 raises `AttributeError`). -/
structure KeyStmt where
  ncommands : Nat
  code : Option String
deriving DecidableEq

/-- A parsed container literal (`self._array`). -/
structure PArr (S : Type) where
  ty : ArrTy
  keys : List KeyStmt
  values : List S
deriving DecidableEq

/-- The exact index handed to `get_exact_index_types` (`index.var_args[0]`): a
literal int or a literal string-key text. -/
inductive MIdx where
  | i (n : Int)
  | s (t : String)
deriving DecidableEq

/-- Comparison `mixed_index == str_key` (line 832): only a string index can equal a
stored key's source text; an int never equals a string in Python. -/
def keyMatch (m : MIdx) (c : String) : Bool :=
  match m with
  | .s t => t == c
  | .i _ => false

/-- The key scan of `get_exact_index_types` for mappings (lines 821-834):
first key statement with exactly one command whose code equals the index
text; a single-command key without `get_code` raises `AttributeError`
(line 827, outside the `try`). -/
def findDictIndex (m : MIdx) : List KeyStmt → Nat → Except Exc (Option Nat)
  | [], _ => .ok none
  | k :: ks, i =>
    if k.ncommands = 1 then
      match k.code with
      | none => .error Exc.attrError
      | some c => if keyMatch m c then .ok (some i) else findDictIndex m ks (i + 1)
    else findDictIndex m ks (i + 1)

/-- Python sequence indexing `values[n]` with an int index (negative indices
count from the end; out of range raises `IndexError`). -/
def pyIndex {α : Type} (l : List α) (n : Int) : Except Exc α :=
  let k : Int := if n < 0 then n + l.length else n
  if 0 ≤ k then
    match l.get? k.toNat with
    | some x => .ok x
    | none => .error Exc.indexError
  else .error Exc.indexError

/-- Operation `Array.get_exact_index_types` (lines 817-840): for a mapping, scan the
stored keys for the index's literal text and return the followed value at the
found position; for a sequence, use the literal int directly as position.
A string index on a sequence is Python's `TypeError` (uncaught by the
caller). -/
def getExactIndexTypes {S V : Type} (follow : S → List V) (arr : PArr S) (m : MIdx) :
    Except Exc (List V) :=
  if arr.ty = ArrTy.dict then
    match findDictIndex m arr.keys 0 with
    | .error e => .error e
    | .ok none => .error Exc.keyError
    | .ok (some i) =>
      match arr.values.get? i with
      | some v => .ok (follow v)
      | none => .error Exc.indexError
  else
    match m with
    | .s _ => .error Exc.typeError
    | .i n =>
      match pyIndex arr.values n with
      | .ok v => .ok (follow v)
      | .error e => .error e

/-- One statement of the index array handed to `get_index_types`: its identity
and its "contains a `':'` command" property (slice detection, line 796); its
evaluation goes through the `followIdx` oracle. -/
structure IdxStmt where
  tag : Nat
  hasColon : Bool
deriving DecidableEq

/-- One evaluated index possibility: an `Instance` with its class name and
`var_args`, or any non-instance value (both rejected by the guard at
lines 805-807 unless a single int/str instance with one argument). -/
inductive IdxPoss where
  | inst (nm : String) (vargs : List MIdx)
  | nonInst (tag : Nat)
deriving DecidableEq

/-- Output of `get_index_types`: the array wrapper itself (slicing,
line 798) or an evaluated element value. -/
inductive AOut (V : Type) where
  | selfArr
  | val (v : V)
deriving DecidableEq

def intS : String := "int"

def strS : String := "str"

/-- Operation `Array.get_index_types` (lines 793-815): slice indices return the array
itself; a single evaluated possibility that is an int/str instance with one
argument attempts exact lookup, falling back on `KeyError`/`IndexError`
(line 810-811) to the approximate union `set(all followed values +
dynamic additions)`; any other shape of index goes straight to the
approximate union. -/
def getIndexTypes {S V : Type} [DecidableEq V] (follow : S → List V)
    (followIdx : IdxStmt → List IdxPoss) (dynAdds : List V) (arr : PArr S)
    (indexArr : Option (List IdxStmt)) : Except Exc (List (AOut V)) :=
  let fallback : Except Exc (List (AOut V)) :=
    .ok ((((arr.values.map follow).flatten ++ dynAdds).dedup).map AOut.val)
  match indexArr with
  | none => fallback
  | some ia =>
    if ia ≠ [] ∧ ia.any IdxStmt.hasColon then .ok [AOut.selfArr]
    else
      match (ia.map followIdx).flatten with
      | [IdxPoss.inst nm vargs] =>
        if (nm = intS ∨ nm = strS) ∧ vargs.length = 1 then
          match vargs with
          | [m] =>
            match getExactIndexTypes follow arr m with
            | .ok vs => .ok (vs.map AOut.val)
            | .error Exc.keyError => fallback
            | .error Exc.indexError => fallback
            | .error e => .error e
          | _ => fallback
        else fallback
      | _ => fallback

/-- The key scan finds the first well-formed matching key, at its position. -/
theorem findDictIndex_found (m : MIdx) (k0 : KeyStmt) (ks2 : List KeyStmt) (c0 : String)
    (hn : k0.ncommands = 1) (hc : k0.code = some c0) (hm : keyMatch m c0 = true) :
    ∀ (ks1 : List KeyStmt) (i0 : Nat),
      (∀ k ∈ ks1, k.ncommands ≠ 1 ∨ ∃ c, k.code = some c ∧ keyMatch m c = false) →
      findDictIndex m (ks1 ++ k0 :: ks2) i0 = .ok (some (i0 + ks1.length))
  | [], i0 => by
    intro _
    simp [findDictIndex, hn, hc, hm]
  | k :: ks1, i0 => by
    intro h
    have hrec := findDictIndex_found m k0 ks2 c0 hn hc hm ks1 (i0 + 1)
      (fun q hq => h q (List.mem_cons_of_mem _ hq))
    have harith : i0 + 1 + ks1.length = i0 + (ks1.length + 1) := by omega
    by_cases hnc : k.ncommands = 1
    · rcases h k (List.mem_cons_self k ks1) with hk | ⟨c, hkc, hkm⟩
      · exact absurd hnc hk
      · simp only [List.cons_append, findDictIndex, if_pos hnc, hkc, hkm, Bool.false_eq_true,
          if_false, List.append_eq, hrec, harith, List.length_cons]
    · simp only [List.cons_append, findDictIndex, if_neg hnc, List.append_eq, hrec, harith,
        List.length_cons]

/-- The key scan reports no match when no well-formed key matches. -/
theorem findDictIndex_none (m : MIdx) :
    ∀ (ks : List KeyStmt) (i0 : Nat),
      (∀ k ∈ ks, k.ncommands ≠ 1 ∨ ∃ c, k.code = some c ∧ keyMatch m c = false) →
      findDictIndex m ks i0 = .ok none
  | [], _ => by intro _; rfl
  | k :: ks, i0 => by
    intro h
    have hrec := findDictIndex_none m ks (i0 + 1) (fun q hq => h q (List.mem_cons_of_mem _ hq))
    by_cases hnc : k.ncommands = 1
    · rcases h k (List.mem_cons_self k ks) with hk | ⟨c, hkc, hkm⟩
      · exact absurd hnc hk
      · simp [findDictIndex, hnc, hkc, hkm, hrec]
    · simp [findDictIndex, hnc, hrec]

/-- Wiring of `get_index_types` down to exact lookup: with a colon-free index
array whose evaluation yields exactly one int/str instance possibility with
one literal argument, the result is dictated by `get_exact_index_types`. -/
theorem getIndexTypes_single {S V : Type} [DecidableEq V] (follow : S → List V)
    (followIdx : IdxStmt → List IdxPoss) (dynAdds : List V) (arr : PArr S)
    (ia : List IdxStmt) (nm : String) (m : MIdx)
    (hcolon : ∀ s ∈ ia, s.hasColon = false)
    (hposs : (ia.map followIdx).flatten = [IdxPoss.inst nm [m]])
    (hnm : nm = intS ∨ nm = strS) :
    getIndexTypes follow followIdx dynAdds arr (some ia) =
      match getExactIndexTypes follow arr m with
      | .ok vs => .ok (vs.map AOut.val)
      | .error Exc.keyError =>
          .ok ((((arr.values.map follow).flatten ++ dynAdds).dedup).map AOut.val)
      | .error Exc.indexError =>
          .ok ((((arr.values.map follow).flatten ++ dynAdds).dedup).map AOut.val)
      | .error e => .error e := by
  have hany : ia.any IdxStmt.hasColon = false := by
    rw [List.any_eq_false]
    intro s hs
    simp [hcolon s hs]
  unfold getIndexTypes
  simp only [hany, ne_eq, Bool.false_eq_true, and_false, if_false]
  rw [hposs]
  simp [hnm]

/-- A stored mapping key used in the C5 scenarios. -/
def kOne : String := "k1"

/-- A mapping key absent from the C5 scenario container. -/
def kTwo : String := "k2"

/-- C5 (counterexample): indexing the mapping literal `{k1: 10}` with the
absent literal key `k2` does *not* give the caller of `get_index_types` an
empty result: the `KeyError` of exact lookup is caught (lines 810-811) and
the approximate fallback returns the union of all stored values, here `[10]`. -/
theorem get_index_types_missing_key_not_empty :
    getIndexTypes (fun s => [s]) (fun _ => [IdxPoss.inst strS [MIdx.s kTwo]]) []
        (⟨ArrTy.dict, [⟨1, some kOne⟩], [10]⟩ : PArr Nat) (some [⟨0, false⟩]) =
      .ok [AOut.val 10] ∧
      getIndexTypes (fun s => [s]) (fun _ => [IdxPoss.inst strS [MIdx.s kTwo]]) []
        (⟨ArrTy.dict, [⟨1, some kOne⟩], [10]⟩ : PArr Nat) (some [⟨0, false⟩]) ≠
      .ok [] := by
  decide

/-- C5 (amended): exact indexed lookup through `get_index_types` returns
exactly the followed value(s) stored at the first mapping key whose source
text equals the index's literal text (part 1) and, for a sequence literal with
an in-range literal int index, exactly the value at that position (part 3);
when no stored key matches, the `KeyError` is caught and the caller receives
the approximate union of all stored element values plus dynamic additions —
never a surfaced `KeyError`/`IndexError`, and an empty result only if that
union is empty (part 2). -/
theorem array_index_lookup_exact_and_fallback {S V : Type} [DecidableEq V]
    (follow : S → List V) (followIdx : IdxStmt → List IdxPoss) (dynAdds : List V)
    (arr1 : PArr S) (ks1 ks2 : List KeyStmt) (t : String) (sv1 : S) (ia1 : List IdxStmt)
    (ha1 : arr1.ty = ArrTy.dict)
    (ha2 : arr1.keys = ks1 ++ ⟨1, some t⟩ :: ks2)
    (ha3 : ∀ k ∈ ks1, k.ncommands ≠ 1 ∨ ∃ c, k.code = some c ∧ keyMatch (MIdx.s t) c = false)
    (ha4 : arr1.values[ks1.length]? = some sv1)
    (ha5 : ∀ s ∈ ia1, s.hasColon = false)
    (ha6 : (ia1.map followIdx).flatten = [IdxPoss.inst strS [MIdx.s t]])
    (arr2 : PArr S) (t2 : String) (ia2 : List IdxStmt)
    (hb1 : arr2.ty = ArrTy.dict)
    (hb2 : ∀ k ∈ arr2.keys, k.ncommands ≠ 1 ∨ ∃ c, k.code = some c ∧ keyMatch (MIdx.s t2) c = false)
    (hb3 : ∀ s ∈ ia2, s.hasColon = false)
    (hb4 : (ia2.map followIdx).flatten = [IdxPoss.inst strS [MIdx.s t2]])
    (arr3 : PArr S) (n : Int) (sv3 : S) (ia3 : List IdxStmt)
    (hc1 : arr3.ty = ArrTy.list)
    (hc2 : 0 ≤ n)
    (hc3 : arr3.values[n.toNat]? = some sv3)
    (hc4 : ∀ s ∈ ia3, s.hasColon = false)
    (hc5 : (ia3.map followIdx).flatten = [IdxPoss.inst intS [MIdx.i n]]) :
    getIndexTypes follow followIdx dynAdds arr1 (some ia1) =
        .ok ((follow sv1).map AOut.val) ∧
      getIndexTypes follow followIdx dynAdds arr2 (some ia2) =
        .ok ((((arr2.values.map follow).flatten ++ dynAdds).dedup).map AOut.val) ∧
      getIndexTypes follow followIdx dynAdds arr3 (some ia3) =
        .ok ((follow sv3).map AOut.val) := by
  refine ⟨?_, ?_, ?_⟩
  · rw [getIndexTypes_single follow followIdx dynAdds arr1 ia1 strS (MIdx.s t) ha5 ha6
      (Or.inr rfl)]
    have hexact : getExactIndexTypes follow arr1 (MIdx.s t) = .ok (follow sv1) := by
      have hfind := findDictIndex_found (MIdx.s t) ⟨1, some t⟩ ks2 t rfl rfl
        (by simp [keyMatch]) ks1 0 ha3
      unfold getExactIndexTypes
      rw [ha2]
      simp [ha1, hfind, ha4]
    rw [hexact]
  · rw [getIndexTypes_single follow followIdx dynAdds arr2 ia2 strS (MIdx.s t2) hb3 hb4
      (Or.inr rfl)]
    have hexact : getExactIndexTypes follow arr2 (MIdx.s t2) = .error Exc.keyError := by
      unfold getExactIndexTypes
      simp [hb1, findDictIndex_none (MIdx.s t2) arr2.keys 0 hb2]
    rw [hexact]
  · rw [getIndexTypes_single follow followIdx dynAdds arr3 ia3 intS (MIdx.i n) hc4 hc5
      (Or.inl rfl)]
    have hnn : ¬ n < 0 := not_lt.mpr hc2
    have hexact : getExactIndexTypes follow arr3 (MIdx.i n) = .ok (follow sv3) := by
      unfold getExactIndexTypes
      simp [hc1, pyIndex, hnn, hc2, hc3]
    rw [hexact]

/-- Witness for `array_index_lookup_exact_and_fallback`: the mapping
`{k1: 10}` hit at `k1` and missed at `k2`, and the sequence `[10, 20, 30]`
indexed by literal `1` returning only the element at position 1. -/
theorem array_index_lookup_exact_and_fallback_witness :
    getIndexTypes (fun (s : Nat) => [s])
        (fun st => if st.tag = 0 then [IdxPoss.inst strS [MIdx.s kOne]]
          else [IdxPoss.inst intS [MIdx.i 1]]) []
        (⟨ArrTy.dict, [⟨1, some kOne⟩], [10]⟩ : PArr Nat) (some [⟨0, false⟩]) =
      .ok ([10].map AOut.val) ∧
      getIndexTypes (fun (s : Nat) => [s])
          (fun st => if st.tag = 0 then [IdxPoss.inst strS [MIdx.s kOne]]
            else [IdxPoss.inst intS [MIdx.i 1]]) []
          (⟨ArrTy.dict, [⟨2, some kTwo⟩], [11]⟩ : PArr Nat) (some [⟨0, false⟩]) =
        .ok (((([11].map (fun (s : Nat) => [s])).flatten ++ []).dedup).map AOut.val) ∧
      getIndexTypes (fun (s : Nat) => [s])
          (fun st => if st.tag = 0 then [IdxPoss.inst strS [MIdx.s kOne]]
            else [IdxPoss.inst intS [MIdx.i 1]]) []
          (⟨ArrTy.list, [], [10, 20, 30]⟩ : PArr Nat) (some [⟨1, false⟩]) =
        .ok ([20].map AOut.val) :=
  array_index_lookup_exact_and_fallback (fun (s : Nat) => [s])
    (fun st => if st.tag = 0 then [IdxPoss.inst strS [MIdx.s kOne]]
      else [IdxPoss.inst intS [MIdx.i 1]]) []
    ⟨ArrTy.dict, [⟨1, some kOne⟩], [10]⟩ [] [] kOne 10 [⟨0, false⟩] rfl rfl (by decide)
    rfl (by decide) (by decide) ⟨ArrTy.dict, [⟨2, some kTwo⟩], [11]⟩ kOne [⟨0, false⟩]
    rfl (by decide) (by decide) (by decide) ⟨ArrTy.list, [], [10, 20, 30]⟩ 1 20
    [⟨1, false⟩] rfl (by decide) (by decide) (by decide) (by decide)

/-! ### Function wrapper, decorators and Execution of functions
(`Function`, lines 304-373; `Execution.get_return_types` /
`_get_function_returns`, lines 396-483; `Generator`, lines 745-782)

Decorator statements and return statements are `Nat` identifiers; the
evaluation of a decorator statement (`evaluate.follow_statement`) and the
execution of a decorator value (`Execution(decorator, (old_func,))
.get_return_types()`) are oracles, as both run arbitrary evaluation. -/

/-- A parsed function definition (`pr.Function`) with the fields read by the
decorator and execution logic: identity, decorator statements in declaration
order, `is_generator`, and return statements (entries may be `None`,
skipped at line 481). -/
structure FuncDef where
  fid : Nat
  decorators : List Nat
  isGen : Bool
  rets : List (Option Nat)
deriving DecidableEq

/-- An evaluated `Function` wrapper (`er.Function`): the wrapped raw function
and the `is_decorated` flag.  `cache.CachedMetaClass` makes wrapper identity
coincide with structural equality of these fields. -/
structure FuncW where
  baseFunc : FuncDef
  isDecorated : Bool
deriving DecidableEq

/-- A value produced by executing a decorator (one element of `wrappers`,
line 338): a raw `pr.Function`, or any other evaluated value together with
its `is_generator` attribute. -/
inductive WVal where
  | rawFunc (fd : FuncDef)
  | other (tag : Nat) (isGen : Bool)
deriving DecidableEq

/-- The `for dec in reversed(self.base_func.decorators)` loop of
`Function._decorated_func` (lines 324-348), already reversed: evaluate the
decorator statement, take the *last* candidate (`dec_results.pop()`,
line 334, after warning on ambiguity), execute it on the current target and
take the *first* returned wrapper (`wrappers[0]`, line 346); an empty
candidate or wrapper list aborts with `None` (lines 327-330, 339-341). -/
def decoratedTargetGo (followDec : Nat → List Nat) (execDec : Nat → WVal → List WVal) :
    List Nat → WVal → Option WVal
  | [], t => some t
  | d :: ds, t =>
    match (followDec d).getLast? with
    | none => none
    | some dec =>
      match execDec dec t with
      | [] => none
      | w :: _ => decoratedTargetGo followDec execDec ds w

/-- The value of `f` at the end of `Function._decorated_func`'s loop: the raw
base function when already decorated or without decorators, else the
chained wrapper result. -/
def decoratedTarget (followDec : Nat → List Nat) (execDec : Nat → WVal → List WVal)
    (f : FuncW) : Option WVal :=
  if f.isDecorated then some (WVal.rawFunc f.baseFunc)
  else decoratedTargetGo followDec execDec f.baseFunc.decorators.reverse
    (WVal.rawFunc f.baseFunc)

/-- Result of `Function._decorated_func` (lines 313-351): `None` on failure; the raw
base function itself; a fresh `Function` wrapper around a different raw
function (line 349-350); or a non-function value. -/
inductive DFRes where
  | noneRes
  | base
  | wrapped (fd : FuncDef)
  | value (tag : Nat) (isGen : Bool)
deriving DecidableEq

def decoratedFunc (followDec : Nat → List Nat) (execDec : Nat → WVal → List WVal)
    (f : FuncW) : DFRes :=
  match decoratedTarget followDec execDec f with
  | none => DFRes.noneRes
  | some (WVal.rawFunc fd) => if fd = f.baseFunc then DFRes.base else DFRes.wrapped fd
  | some (WVal.other tag g) => DFRes.value tag g

/-- Result of `Function.get_decorated_func` (lines 353-358): the wrapper
itself (`return self`, when `_decorated_func == base_func`), a fresh
`Function` wrapper, or a substituted non-function value. -/
inductive GDF where
  | selfW
  | funcW (fd : FuncDef)
  | valW (tag : Nat) (isGen : Bool)
deriving DecidableEq

/-- Operation `Function.get_decorated_func`: raises `DecoratorNotFound` when
`_decorated_func` is `None`. -/
def getDecoratedFunc (followDec : Nat → List Nat) (execDec : Nat → WVal → List WVal)
    (f : FuncW) : Except Exc GDF :=
  match decoratedFunc followDec execDec f with
  | DFRes.noneRes => .error Exc.decoratorNotFound
  | DFRes.base => .ok GDF.selfW
  | DFRes.wrapped fd => .ok (GDF.funcW fd)
  | DFRes.value tag g => .ok (GDF.valW tag g)

/-- The decorated callable as seen by `_get_function_returns`: a `Function`
wrapper, or another value with its `is_generator` attribute. -/
inductive FView where
  | fw (f : FuncW)
  | ov (tag : Nat) (isGen : Bool)
deriving DecidableEq

/-- Resolve a `get_decorated_func` result relative to the `Execution`'s own
base wrapper: `selfW` is the base wrapper itself; a returned raw function is
wrapped as `Function(fd)` (with `is_decorated` defaulting to false). -/
def resolveGDF (f : FuncW) : GDF → FView
  | GDF.selfW => FView.fw f
  | GDF.funcW fd => FView.fw ⟨fd, false⟩
  | GDF.valW tag g => FView.ov tag g

/-- Attribute `func.is_generator` at line 476. -/
def fviewIsGen : FView → Bool
  | FView.fw f => f.baseFunc.isGen
  | FView.ov _ g => g

/-- A value returned from `get_return_types` on a function base: a
`Generator(func, var_args)` wrapper (line 477) or an evaluated value. -/
inductive RVal (V : Type) where
  | genW (f : FView) (argsId : Nat)
  | val (v : V)
deriving DecidableEq

/-- Modelled from the spec: `imports.strip_imports` (line 468) lives in
`imports.py`, outside `src/`; per spec §6 it is the import-normalization step
`strip(values) -> set<Value>`, which leaves non-import values — all the
values this fragment produces — unchanged. -/
def stripImports {V : Type} (l : List (RVal V)) : List (RVal V) := l

/-- An `Execution` whose base is a `Function` wrapper over an ordinary
function definition (not builtin-scope, not a class, not a generator, with a
`returns` attribute), plus the argument-list identity. -/
structure ExecF where
  func : FuncW
  argsId : Nat
deriving DecidableEq

/-- Operation `Execution.get_return_types` on a function base (lines 444-483): the
`self.base.returns` probe succeeds, so the else-branch runs
`_get_function_returns`, whose `get_decorated_func()` call may raise
`DecoratorNotFound` — raised in the `else:` clause of the `try` at lines
452-463, hence *not* caught by the `except (AttributeError,
DecoratorNotFound)` there and propagated to the caller.  Otherwise: a
generator-shaped decorated target without content mode yields exactly one
`Generator` wrapper; else the docstring hints plus the followed non-`None`
return statements of the base function. -/
def getReturnTypesF {V : Type} (followDec : Nat → List Nat)
    (execDec : Nat → WVal → List WVal) (followRet : Nat → List V)
    (hintsOf : FView → List V) (e : ExecF) (evalGen : Bool) :
    Except Exc (List (RVal V)) :=
  match getDecoratedFunc followDec execDec e.func with
  | .error ex => .error ex
  | .ok g =>
    let fv := resolveGDF e.func g
    if fviewIsGen fv ∧ evalGen = false then
      .ok (stripImports [RVal.genW fv e.argsId])
    else
      .ok (stripImports
        ((hintsOf fv).map RVal.val ++
          ((e.func.baseFunc.rets.filterMap id).map followRet).flatten.map RVal.val))

/-- A `Generator` wrapper (lines 745-782): the underlying function wrapper
and the argument list identity. -/
structure GenW where
  func : FuncW
  argsId : Nat
deriving DecidableEq

/-- Operation `Generator.iter_content` (lines 769-771): re-invoke `Execution`
on the underlying function with `evaluate_generator=True`. -/
def iterContent {V : Type} (followDec : Nat → List Nat)
    (execDec : Nat → WVal → List WVal) (followRet : Nat → List V)
    (hintsOf : FView → List V) (g : GenW) : Except Exc (List (RVal V)) :=
  getReturnTypesF followDec execDec followRet hintsOf ⟨g.func, g.argsId⟩ true

/-- An `InstanceElement` wrapping a function member: the eagerly created
`Function` wrapper (line 188-189) and the owning instance identity. -/
structure InstElem where
  var : FuncW
  instId : Nat
deriving DecidableEq

/-- Result of `InstanceElement.get_decorated_func` (lines 211-216): the
`InstanceElement` itself when the member's decoration is a no-op, else the
member's decoration result passed through (stripping the instance binding). -/
inductive IEOut where
  | selfIE
  | passF (fd : FuncDef)
  | passV (tag : Nat) (isGen : Bool)
deriving DecidableEq

/-- Operation `InstanceElement.get_decorated_func`: `func == self.var` holds exactly
when the inner `get_decorated_func` returned the member wrapper itself. -/
def instElemGetDecoratedFunc (followDec : Nat → List Nat)
    (execDec : Nat → WVal → List WVal) (ie : InstElem) : Except Exc IEOut :=
  match getDecoratedFunc followDec execDec ie.var with
  | .error e => .error e
  | .ok GDF.selfW => .ok IEOut.selfIE
  | .ok (GDF.funcW fd) => .ok (IEOut.passF fd)
  | .ok (GDF.valW tag g) => .ok (IEOut.passV tag g)

/-- C6: a decorator expression that evaluates to zero candidate values
makes `_decorated_func` resolve to `None` non-fatally, but a return-type
query on an `Execution` of that function then *propagates* the resulting
`DecoratorNotFound` exception: `get_decorated_func()` is called inside
`_get_function_returns` (line 475), which runs in the `else:` clause of the
`try` at lines 452-463, where the `except (AttributeError,
DecoratorNotFound)` cannot catch it — contradicting the claimed empty-set
degradation; the claim's second half holds: among multiple decorator
candidates the last-evaluated one (`dec_results.pop()`) is used after a
warning, as the second conjunct shows by observing which candidate's
execution result survives. -/
theorem get_return_types_decorator_failure_propagates :
    getReturnTypesF (V := Nat) (fun _ => []) (fun _ _ => []) (fun _ => []) (fun _ => [])
        ⟨⟨⟨0, [5], false, [some 1]⟩, false⟩, 0⟩ false =
      .error Exc.decoratorNotFound ∧
      decoratedTarget (fun _ => [3, 4])
          (fun dec t => if dec = 4 then [WVal.other 7 false] else [WVal.other 8 false])
          ⟨⟨1, [9], false, []⟩, false⟩ =
        some (WVal.other 7 false) := by
  constructor
  · rfl
  · rfl

/-- C8: `Generator.iter_content()` re-invokes `Execution` with content
evaluation requested, so every value it returns is a plain evaluated value —
in particular it never contains a `Generator` wrapper over the same function
and argument list (no double wrapping); whereas an ordinary call
(`evaluate_generator=False`) of an undecorated generator-shaped function
returns exactly one `Generator` wrapper over that function and argument
list. -/
theorem iter_content_no_double_wrapping {V : Type} (followDec : Nat → List Nat)
    (execDec : Nat → WVal → List WVal) (followRet : Nat → List V)
    (hintsOf : FView → List V) (g : GenW) (l : List (RVal V))
    (h : iterContent followDec execDec followRet hintsOf g = .ok l) :
    (∀ x ∈ l, ∃ v, x = RVal.val v) ∧
      ∀ (e : ExecF), e.func.baseFunc.decorators = [] → e.func.isDecorated = false →
        e.func.baseFunc.isGen = true →
        getReturnTypesF followDec execDec followRet hintsOf e false =
          .ok [RVal.genW (FView.fw e.func) e.argsId] := by
  constructor
  · intro x hx
    rcases hgd : getDecoratedFunc followDec execDec g.func with ex | g'
    · simp [iterContent, getReturnTypesF, hgd] at h
    · simp only [iterContent, getReturnTypesF, hgd, stripImports, Bool.true_eq_false,
        and_false, if_false, Except.ok.injEq] at h
      subst h
      rcases List.mem_append.mp hx with hx | hx
      · rcases List.mem_map.mp hx with ⟨v, _, rfl⟩
        exact ⟨v, rfl⟩
      · rcases List.mem_map.mp hx with ⟨v, _, rfl⟩
        exact ⟨v, rfl⟩
  · intro e hdec hd hg
    have htgt : decoratedTarget followDec execDec e.func =
        some (WVal.rawFunc e.func.baseFunc) := by
      unfold decoratedTarget
      simp [hd, hdec, decoratedTargetGo]
    have hgdf : getDecoratedFunc followDec execDec e.func = .ok GDF.selfW := by
      unfold getDecoratedFunc decoratedFunc
      rw [htgt]
      simp
    simp [getReturnTypesF, hgdf, resolveGDF, fviewIsGen, hg, stripImports]

/-- Witness for `iter_content_no_double_wrapping`: a generator function with
one yield-derived return statement; `iter_content` yields only the followed
plain value. -/
theorem iter_content_no_double_wrapping_witness :
    (∀ x ∈ [RVal.val (3 : Nat)], ∃ v, x = RVal.val v) ∧
      ∀ (e : ExecF), e.func.baseFunc.decorators = [] → e.func.isDecorated = false →
        e.func.baseFunc.isGen = true →
        getReturnTypesF (fun _ => []) (fun _ _ => []) (fun s => [s]) (fun _ => []) e false =
          .ok [RVal.genW (FView.fw e.func) e.argsId] :=
  iter_content_no_double_wrapping (fun _ => []) (fun _ _ => []) (fun s => [s])
    (fun _ => []) ⟨⟨⟨2, [], true, [some 3]⟩, false⟩, 0⟩ [RVal.val 3] (by decide)

/-- C10: decorator resolution preserves wrapper identity when it is a
no-op: when the resolved decoration target is the wrapper's own raw function
definition, `Function.get_decorated_func()` returns the wrapper itself
(`selfW`), and `InstanceElement.get_decorated_func()` then returns the
`InstanceElement` itself, so the instance binding is never stripped. -/
theorem decorated_func_identity_preserving (followDec : Nat → List Nat)
    (execDec : Nat → WVal → List WVal) (f : FuncW) (ie : InstElem)
    (hf : decoratedTarget followDec execDec f = some (WVal.rawFunc f.baseFunc))
    (hie : decoratedTarget followDec execDec ie.var = some (WVal.rawFunc ie.var.baseFunc)) :
    getDecoratedFunc followDec execDec f = .ok GDF.selfW ∧
      instElemGetDecoratedFunc followDec execDec ie = .ok IEOut.selfIE := by
  have h2 : getDecoratedFunc followDec execDec ie.var = .ok GDF.selfW := by
    unfold getDecoratedFunc decoratedFunc
    rw [hie]
    simp
  refine ⟨?_, by unfold instElemGetDecoratedFunc; rw [h2]⟩
  unfold getDecoratedFunc decoratedFunc
  rw [hf]
  simp

/-- Witness for `decorated_func_identity_preserving`: an undecorated function
and an instance-bound member over an undecorated function. -/
theorem decorated_func_identity_preserving_witness :
    getDecoratedFunc (fun _ => []) (fun _ _ => []) ⟨⟨0, [], false, []⟩, false⟩ =
      .ok GDF.selfW ∧
      instElemGetDecoratedFunc (fun _ => []) (fun _ _ => [])
          ⟨⟨⟨4, [], false, [some 2]⟩, false⟩, 5⟩ =
        .ok IEOut.selfIE :=
  decorated_func_identity_preserving (fun _ => []) (fun _ _ => [])
    ⟨⟨0, [], false, []⟩, false⟩ ⟨⟨⟨4, [], false, [some 2]⟩, false⟩, 5⟩ rfl rfl

/-! ### Recursion guard (`Execution.get_return_types` wrappers, lines 396-398) -/

/-- A return branch of a self-referential function: a plain evaluated value,
or a re-entrant call of the very same function with the identical
argument-list identity. -/
inductive RetBr (V : Type) where
  | lit (v : V)
  | selfCall
deriving DecidableEq

/-- A self-referential function: its return statements. -/
structure SelfRefFunc (V : Type) where
  rets : List (RetBr V)
deriving DecidableEq

/-- Modelled from the spec: the recursion guard
(`recursion.ExecutionRecursionDecorator`) and the memoization
(`cache.memoize_default`) wrapping `Execution.get_return_types` at lines
396-398 live in `recursion.py`/`cache.py`, outside `src/`.  Per spec §3
invariant 4 and §5, the guard keys each return-type computation on the
Execution's (callable identity, argument-list identity) and, when a
computation re-enters a key that is already active, returns the empty default
result instead of recursing.  `active` records whether this very key is
already on the guard's stack: a return statement that re-enters the same key
is evaluated with `active = true` and cut off with `[]`.  The definition is
by well-founded recursion on the guard state, so evaluation always
terminates. -/
def evalReturnTypes {V : Type} (f : SelfRefFunc V) (active : Bool) : List V :=
  if h : active then []
  else
    (f.rets.map (fun r =>
      match r with
      | RetBr.lit v => [v]
      | RetBr.selfCall => evalReturnTypes f true)).flatten
termination_by if active then 0 else 1
decreasing_by simp_all

theorem flatten_map_ret {V : Type} (l : List (RetBr V)) :
    (l.map (fun r =>
      match r with
      | RetBr.lit v => [v]
      | RetBr.selfCall => ([] : List V))).flatten =
      l.filterMap (fun r =>
        match r with
        | RetBr.lit v => some v
        | RetBr.selfCall => none) := by
  induction l with
  | nil => rfl
  | cons r l ih => cases r <;> simp [ih]

/-- C7: a guarded return-type computation of a self-referential function
that re-enters its own key with the identical argument-list identity
terminates (the guard model is a total function) and yields exactly the
values of the non-recursive return branches, possibly empty: the re-entrant
evaluation (`active = true`) contributes the guard's empty default. -/
theorem guarded_return_types_nonrecursive {V : Type} (f : SelfRefFunc V) :
    evalReturnTypes f false =
        f.rets.filterMap (fun r =>
          match r with
          | RetBr.lit v => some v
          | RetBr.selfCall => none) ∧
      evalReturnTypes f true = [] := by
  have h2 : evalReturnTypes f true = [] := by
    rw [evalReturnTypes]
    simp
  refine ⟨?_, h2⟩
  rw [evalReturnTypes]
  simp only [h2, Bool.false_eq_true, dif_neg, not_false_iff]
  rw [flatten_map_ret]

end Jedi
